import Mathlib

/-!
Verification of the document construction and chunking engine of the
`scripts/rag` ingestion pipeline (pipecat-ai/voice-ui-kit).

The Python sources are shallowly embedded as executable Lean definitions:
  * `split_documents`   models `LineAwareSplitter.split_documents` (run.py),
    with an explicit fuel parameter standing for the unbounded `while` loop
    (`none` means the fuel was exhausted before the loop finished);
  * `chunkDocument`     models the chunk-profile selection branch of
    `ingest` (run.py lines 308-337);
  * `extract_components_with_ast` models source.py's extractor wiring, with
    the external tree-sitter pipeline and the regex fallback passed in as
    oracles (their internals never decide the claims below);
  * `process_documentation_file` models docs.py, with the frontmatter
    parse outcome passed in as a parameter;
  * `analyze_example_with_llm` / `process_example_project` model
    examples.py, with the file system and the LLM call passed in as oracles.

Metadata dictionaries are modelled as functions `String → Option MetaVal`,
matching Python `dict` lookup / copy-update semantics.  String helpers
(`splitlines`, `rstrip`, `strip`, `join`) model the corresponding Python
string methods for `\n`-terminated text and ASCII whitespace.
-/

namespace VUIKit

/-- Scalar metadata value, as stored in a Document's metadata mapping. -/
inductive MetaVal where
  | int (n : Int)
  | str (s : String)
  | boolv (b : Bool)
deriving DecidableEq, Repr

/-- Metadata mapping: Python `dict` modelled as a lookup function. -/
def Metadata : Type := String → Option MetaVal

/-- A langchain `Document`: page content plus a metadata mapping. -/
structure Document where
  page_content : String
  metadata : Metadata

/-- Python whitespace characters recognised by `str.strip` (ASCII part). -/
def pyWhitespace (c : Char) : Bool :=
  c == ' ' || c == '\t' || c == '\n' || c == '\r' || c == '\x0b' || c == '\x0c'

/-- Python `str.rstrip()`: remove trailing whitespace. -/
def rstrip (s : String) : String :=
  String.mk ((s.data.reverse.dropWhile pyWhitespace).reverse)

/-- Python `str.strip()`: remove leading and trailing whitespace. -/
def pyStrip (s : String) : String :=
  String.mk (((s.data.dropWhile pyWhitespace).reverse.dropWhile pyWhitespace).reverse)

/-- Character scan behind `splitlines`: `cur` is the current line so far,
in reverse.  A terminating piece is emitted only when non-empty, so text
ending in a newline yields no trailing empty line. -/
def splitlinesAux (cur : List Char) : List Char → List String
  | [] => if cur.isEmpty then [] else [String.mk cur.reverse]
  | c :: rest =>
      if c = '\n' then String.mk cur.reverse :: splitlinesAux [] rest
      else splitlinesAux (c :: cur) rest

/-- Python `str.splitlines()` for `\n`-separated text: split on newlines,
without a trailing empty piece when the text ends in a newline. -/
def splitlines (s : String) : List String := splitlinesAux [] s.data

/-- Python `"\n".join(lines)`. -/
def joinLines : List String → String
  | [] => ""
  | [l] => l
  | l :: l2 :: rest => l ++ "\n" ++ joinLines (l2 :: rest)

/-- Accumulated character length of a line buffer: each line contributes its
length plus one newline, as in `sum(len(l) + 1 for l in current)`. -/
def linesLen (ls : List String) : Nat := (ls.map (fun l => l.length + 1)).sum

/-- Metadata of an emitted chunk:
`meta["start_line"] = meta.get("start_line", computed)` and likewise for
`end_line`; every other key is copied unchanged (run.py lines 67-69). -/
def chunkMeta (meta : Metadata) (startLine endLine : Int) : Metadata := fun k =>
  if k = "start_line" then some ((meta "start_line").getD (.int startLine))
  else if k = "end_line" then some ((meta "end_line").getD (.int endLine))
  else meta k

/-- Close the current buffer into a chunk Document (run.py lines 65-70). -/
def mkChunk (meta : Metadata) (current : List String) (start_line_idx : Int) : Document :=
  { page_content := rstrip (joinLines current)
  , metadata :=
      chunkMeta meta (start_line_idx + 1) ((start_line_idx + current.length - 1) + 1) }

/-- Backward scan of the overlap carry-over (run.py lines 74-79), applied to
the reversed buffer: take a line while `remaining > 0`, then decrement
`remaining` by the line's length plus one. -/
def carryAux (remaining : Int) : List String → List String
  | [] => []
  | l :: rest =>
      if 0 < remaining then l :: carryAux (remaining - (l.length + 1)) rest else []

/-- Overlap carry-over seed for the next buffer (run.py lines 72-80):
the scanned tail of the just-closed buffer, in original order. -/
def overlapCarry (chunk_overlap : Nat) (current : List String) : List String :=
  (carryAux (chunk_overlap : Int) current.reverse).reverse

/-- One-to-one embedding of the `while i < len(lines)` loop of
`LineAwareSplitter.split_documents` (run.py lines 61-93), with fuel for the
unbounded loop.  State: `i`, `current`, `current_len`, `start_line_idx`,
and the output accumulator `out`.  Returns `none` when fuel runs out. -/
def splitLoop (chunk_size chunk_overlap : Nat) (meta : Metadata) (lines : List String) :
    Nat → Nat → List String → Nat → Int → List Document → Option (List Document)
  | 0, _, _, _, _, _ => none
  | fuel + 1, i, current, current_len, start_line_idx, out =>
    if h : i < lines.length then
      if chunk_size < current_len + (lines[i].length + 1) ∧ current ≠ [] then
        splitLoop chunk_size chunk_overlap meta lines fuel i
          (overlapCarry chunk_overlap current)
          (linesLen (overlapCarry chunk_overlap current))
          ((i : Int) - (overlapCarry chunk_overlap current).length)
          (out ++ [mkChunk meta current start_line_idx])
      else
        splitLoop chunk_size chunk_overlap meta lines fuel (i + 1)
          (current ++ [lines[i]]) (current_len + (lines[i].length + 1))
          start_line_idx out
    else
      if current ≠ [] then some (out ++ [mkChunk meta current start_line_idx])
      else some out

/-- `LineAwareSplitter.split_documents` on a single source Document
(run.py lines 52-94; `ingest` always passes a one-element list). -/
def split_documents (chunk_size chunk_overlap fuel : Nat) (d : Document) :
    Option (List Document) :=
  splitLoop chunk_size chunk_overlap d.metadata (splitlines d.page_content) fuel 0 [] 0 0 []

/-! Chunk-profile configuration (config.py). -/

def DEFAULT_CHUNK_CHARS : Nat := 4000
def DEFAULT_CHUNK_OVERLAP : Nat := 400
def TS_CHUNK_CHARS : Nat := 6000
def TS_CHUNK_OVERLAP : Nat := 600
def DOCS_CHUNK_CHARS : Nat := 8000
def DOCS_CHUNK_OVERLAP : Nat := 800
def EXAMPLE_CHUNK_CHARS : Nat := 10000
def EXAMPLE_CHUNK_OVERLAP : Nat := 1000

/-- config.py line 50. -/
def PROPS_FILE_PATTERNS : List String := ["Props.ts", "Props.tsx"]

/-- Boolean test that `pat` is a prefix of `hay` (character lists). -/
def subAt : List Char → List Char → Bool
  | [], _ => true
  | _ :: _, [] => false
  | a :: as, b :: bs => a == b && subAt as bs

/-- Scan helper for substring containment. -/
def hasSubAux (pat : List Char) : List Char → Bool
  | [] => subAt pat []
  | c :: rest => subAt pat (c :: rest) || hasSubAux pat rest

/-- Python `pat in hay` on strings: substring containment. -/
def strHasSub (hay pat : String) : Bool := hasSubAux pat.data hay.data

/-- Python `metadata.get(key, default)` for string-valued metadata. -/
def getStrD (m : Metadata) (k d : String) : String :=
  match m k with
  | some (.str s) => s
  | _ => d

/-- Chunk-profile selection applied per Document in `ingest`
(run.py lines 308-337): atomic props files pass through unchanged, then
example / docs / TypeScript / default profiles, first match wins. -/
def chunkDocument (chunk_chars chunk_overlap fuel : Nat) (doc : Document) :
    Option (List Document) :=
  let ext := (getStrD doc.metadata "ext" "").toLower
  let relpath := getStrD doc.metadata "relpath" ""
  let kind := getStrD doc.metadata "kind" ""
  if PROPS_FILE_PATTERNS.any (fun pat => strHasSub relpath pat) then
    some [doc]
  else if kind = "example" then
    split_documents EXAMPLE_CHUNK_CHARS EXAMPLE_CHUNK_OVERLAP fuel doc
  else if kind = "docs" ∨ ext = ".md" ∨ ext = ".mdx" then
    split_documents DOCS_CHUNK_CHARS DOCS_CHUNK_OVERLAP fuel doc
  else if ext = ".ts" ∨ ext = ".tsx" then
    split_documents TS_CHUNK_CHARS TS_CHUNK_OVERLAP fuel doc
  else
    split_documents chunk_chars chunk_overlap fuel doc

/-- Length of the longest line of a document. -/
def maxLineLen (lines : List String) : Nat :=
  (lines.map String.length).foldr max 0

/-- Upper bound maintained for the running buffer's accumulated length:
either the buffer respected the size check at its last append, or it is the
overlap carry-over (at most `overlap` plus one line), or it is a single
over-long line appended to an empty buffer. -/
def sizeCap (size overlap : Nat) (lines : List String) : Nat :=
  max size (max (overlap + maxLineLen lines) (maxLineLen lines + 1))

/-- Invariant satisfied by every chunk the splitter emits for a source with
line list `lines` and metadata `meta`: its metadata is the source metadata
with computed 1-based line range `s+1 .. s+n` (pre-existing values taking
precedence), its content is the trailing-whitespace-trimmed join of exactly
that slice of the source lines, and its length respects the soft size cap. -/
def GoodChunk (size overlap : Nat) (meta : Metadata) (lines : List String)
    (c : Document) : Prop :=
  ∃ s n : Nat, 1 ≤ n ∧ s + n ≤ lines.length ∧
    c.metadata = chunkMeta meta ((s : Int) + 1) ((s : Int) + (n : Int)) ∧
    c.page_content = rstrip (joinLines ((lines.drop s).take n)) ∧
    c.page_content.length + 1 ≤ sizeCap size overlap lines

/-- Line `j` (1-based) lies in the computed line range of some chunk. -/
def Covers (meta : Metadata) (chunks : List Document) (j : Nat) : Prop :=
  ∃ c ∈ chunks, ∃ s n : Nat,
    c.metadata = chunkMeta meta ((s : Int) + 1) ((s : Int) + (n : Int)) ∧
    s + 1 ≤ j ∧ j ≤ s + n

/-! Concrete input on which the splitter's `while` loop never makes progress:
an over-long first line (20 chars against `chunk_size = 10`) followed by a
second line, with `chunk_overlap = 1`. -/

/-- The over-long line of `loopDoc`. -/
def loopLine : String := "aaaaaaaaaaaaaaaaaaaa"

/-- Split-lines of `loopDoc.page_content`. -/
def loopLines : List String := [loopLine, "b"]

/-- Source Document whose split never terminates at profile `(10, 1)`. -/
def loopDoc : Document := ⟨"aaaaaaaaaaaaaaaaaaaa\nb", fun _ => none⟩

/-! Concrete inputs used to exercise the theorems below. -/

/-- A small three-line code Document with no pre-existing line annotations. -/
def wDoc : Document :=
  ⟨"ab\ncd\nef", fun k => if k = "kind" then some (.str "code") else none⟩

/-- A Document carrying pre-existing `start_line`/`end_line` annotations. -/
def wDoc6 : Document :=
  ⟨"x\ny", fun k =>
    if k = "start_line" then some (.int 7)
    else if k = "end_line" then some (.int 9)
    else if k = "kind" then some (.str "docs")
    else none⟩

/-- First chunk of `wDoc` at profile `(4, 0)`. -/
def wChunk1 : Document := mkChunk wDoc.metadata ["ab"] 0

/-- Second chunk of `wDoc` at profile `(4, 0)`. -/
def wChunk2 : Document := mkChunk wDoc.metadata ["cd"] 1

/-- Third chunk of `wDoc` at profile `(4, 0)`. -/
def wChunk3 : Document := mkChunk wDoc.metadata ["ef"] 2

/-- First chunk of `wDoc6` at profile `(2, 0)`. -/
def w6Chunk1 : Document := mkChunk wDoc6.metadata ["x"] 0

/-- Second chunk of `wDoc6` at profile `(2, 0)`. -/
def w6Chunk2 : Document := mkChunk wDoc6.metadata ["y"] 1

/-- A source Document whose relpath matches the atomic props-file pattern. -/
def propsDoc : Document :=
  ⟨"export interface ButtonProps", fun k =>
    if k = "relpath" then some (.str "components/ButtonProps.ts")
    else if k = "kind" then some (.str "code")
    else if k = "ext" then some (.str ".ts")
    else none⟩

/-! Symbol extractor (source.py).  The tree-sitter pipeline inside the
`try` block — parser construction, parse, and the two query executions — is
an external dependency modelled as an oracle: `.ok` carries the captures of
the main query and of the additional-patterns query, `.error` stands for any
exception raised inside the `try`.  The regex fallback
`infer_components_from_text` (utils.py) is likewise passed in as a function,
since no claim depends on its internals. -/

/-- A tree-sitter capture: the node's text and the capture's name. -/
structure AstCapture where
  node_text : String
  capture_name : String

/-- File extensions with a configured tree-sitter parser (source.py 138-143). -/
def SUPPORTED_PARSER_EXTS : List String := [".ts", ".tsx", ".js", ".jsx"]

/-- Capture names accepted from the additional-patterns query (source.py 189). -/
def ADDITIONAL_CAPTURE_NAMES : List String :=
  ["memo.component", "ref.component", "direct.component"]

/-- Python `str.isidentifier()` (ASCII fragment). -/
def isidentifier (s : String) : Bool :=
  match s.data with
  | [] => false
  | c :: rest => (c.isAlpha || c == '_') && rest.all (fun d => d.isAlphanum || d == '_')

/-- `extract_components_with_ast` (source.py 153-199): unsupported extensions
yield the empty set; a successful structural parse yields the identifier
captures of both queries; any exception inside the `try` falls back to
`infer_components_from_text(text)` and is never propagated. -/
def extract_components_with_ast
    (astRun : Except Unit (List AstCapture × List AstCapture))
    (infer_components : String → Finset String)
    (text : String) (file_ext : String) : Finset String :=
  if file_ext ∉ SUPPORTED_PARSER_EXTS then ∅
  else
    match astRun with
    | .error _ => infer_components text
    | .ok (captures, additional_captures) =>
        let s1 := captures.foldl (fun acc cap =>
          if cap.node_text ≠ "" ∧ isidentifier cap.node_text = true then
            insert cap.node_text acc
          else acc) ∅
        additional_captures.foldl (fun acc cap =>
          if cap.capture_name ∈ ADDITIONAL_CAPTURE_NAMES ∧ cap.node_text ≠ ""
              ∧ isidentifier cap.node_text = true then
            insert cap.node_text acc
          else acc) s1

/-! Documentation processing (docs.py).  The frontmatter parse outcome is
passed in as the three values `parsed.get` can return; file reading and the
`docs_stats` counters are outside the claims and not modelled. -/

/-- A frontmatter field value: a string or a boolean. -/
inductive FmVal where
  | str (s : String)
  | boolv (b : Bool)
deriving DecidableEq, Repr

/-- Python truthiness of an optional frontmatter value. -/
def fmTruthy : Option FmVal → Bool
  | none => false
  | some (.str s) => s ≠ ""
  | some (.boolv b) => b

/-- Python `value is True`. -/
def fmIsTrue : Option FmVal → Bool
  | some (.boolv true) => true
  | _ => false

/-- Python `value is False`. -/
def fmIsFalse : Option FmVal → Bool
  | some (.boolv false) => true
  | _ => false

/-- Inject a frontmatter value into the metadata value type. -/
def fmToMeta : FmVal → MetaVal
  | .str s => .str s
  | .boolv b => .boolv b

/-- Python `value or ""` as stored in the metadata. -/
def fmOrEmpty (v : Option FmVal) : MetaVal :=
  if fmTruthy v then fmToMeta (v.getD (.str "")) else .str ""

/-- Python `str()` of a frontmatter value (for the `", ".join`). -/
def fmStr : FmVal → String
  | .str s => s
  | .boolv b => if b then "True" else "False"

/-- Python `", ".join(lst)`. -/
def joinCommaSpace : List String → String
  | [] => ""
  | [x] => x
  | x :: y :: rest => x ++ ", " ++ joinCommaSpace (y :: rest)

/-- The shared Component Registry: `component_counts` and `component_files`
(sets of relpaths modelled as duplicate-free lists). -/
structure Registry where
  counts : String → Nat
  files : String → List String

/-- The registry with no recorded components. -/
def emptyRegistry : Registry := ⟨fun _ => 0, fun _ => []⟩

/-- One iteration of the registry update loop (docs.py 86-91): boolean and
non-string values are skipped; a string name has its count bumped and the
relpath added to its file set. -/
def registryAdd (r : Registry) (relpath : String) (c : FmVal) : Registry :=
  match c with
  | .boolv _ => r
  | .str s =>
      { counts := fun n => if n = s then r.counts n + 1 else r.counts n
      , files := fun n => if n = s then (r.files n).insert relpath else r.files n }

/-- Result of processing one documentation file. -/
structure DocsResult where
  docs : List Document
  registry : Registry

/-- `process_documentation_file` (docs.py 27-105) after the file read:
only `.md`/`.mdx` files are processed; the component set is filled from the
frontmatter `component` field only when it is truthy and not a boolean; the
whole file becomes a single Document; `components` is always present. -/
def process_documentation_file
    (fm_title fm_description fm_component : Option FmVal)
    (path relpath ext text : String) (reg : Registry) : DocsResult :=
  if ¬ (ext = ".md" ∨ ext = ".mdx") then ⟨[], reg⟩
  else
    let comps : List FmVal :=
      if fmTruthy fm_component && !fmIsTrue fm_component && !fmIsFalse fm_component then
        [fm_component.getD (.str "")]
      else []
    let baseMeta : Metadata := fun k =>
      if k = "path" then some (.str path)
      else if k = "relpath" then some (.str relpath)
      else if k = "kind" then some (.str "docs")
      else if k = "ext" then some (.str ext)
      else if k = "title" then some (fmOrEmpty fm_title)
      else if k = "description" then some (fmOrEmpty fm_description)
      else if k = "h1" then some (.str "")
      else if k = "h2" then some (.str "")
      else if k = "h3" then some (.str "")
      else none
    if comps ≠ [] then
      let comp_list := comps
      let primary : FmVal :=
        if fmTruthy fm_component && !fmIsTrue fm_component
            && !fmIsFalse fm_component then
          fm_component.getD (.str "")
        else comp_list.headD (.str "")
      let meta : Metadata := fun k =>
        if k = "component" then some (fmToMeta primary)
        else if k = "components" then
          some (.str (joinCommaSpace (comp_list.map fmStr)))
        else baseMeta k
      ⟨[⟨text, meta⟩], comp_list.foldl (fun r c => registryAdd r relpath c) reg⟩
    else
      let meta : Metadata := fun k =>
        if k = "components" then some (.str "") else baseMeta k
      ⟨[⟨text, meta⟩], reg⟩

/-! Example-project processing (examples.py).  The file system (README /
package.json contents, the glob-matched project files) and the LLM call
(response text, `json.loads`) are passed in as oracles. -/

/-- Field accessors of the JSON object returned by a successful
`json.loads` on the LLM response. -/
structure LlmAnalysis where
  description : Option String
  framework : Option String
  build_tool : Option String
  complexity : Option Int
  example_type : Option String
  key_features : Option (List String)

/-- The `ValueError`s `analyze_example_with_llm` can raise, each naming the
project path (examples.py 37, 81, 87). -/
inductive AnalyzeError where
  | noSourceFiles (example_path : String)
  | emptyResponse (example_path : String)
  | invalidJson (example_path : String) (payload : String)
deriving DecidableEq, Repr

/-- The project path named by an analysis error. -/
def AnalyzeError.examplePath : AnalyzeError → String
  | .noSourceFiles p => p
  | .emptyResponse p => p
  | .invalidJson p _ => p

/-- The normalized analysis record built from the parsed JSON
(examples.py 89-96). -/
structure ExampleAnalysis where
  description : String
  framework : String
  build_tool : String
  complexity : Int
  example_type : String
  key_features : List String

/-- A glob-matched regular file of an example project. -/
structure ProjFile where
  name : String
  suffix : String
  relpath : String
  content : String

/-- Boolean test that `p` is a prefix of `s`. -/
def strStartsWith (s p : String) : Bool := subAt p.data s.data

/-- Boolean test that `p` is a suffix of `s`. -/
def strEndsWith (s p : String) : Bool := subAt p.data.reverse s.data.reverse

/-- `get_file_type` (examples.py 194-216). -/
def get_file_type (f : ProjFile) : String :=
  let name := f.name.toLower
  let sfx := f.suffix.toLower
  if name = "package.json" then "dependencies"
  else if strEndsWith name ".config." then "configuration"
  else if sfx = ".tsx" ∨ sfx = ".jsx" then "react_component"
  else if sfx = ".ts" ∨ sfx = ".js" then "typescript"
  else if sfx = ".css" ∨ sfx = ".scss" ∨ sfx = ".sass" then "stylesheet"
  else if sfx = ".md" ∨ sfx = ".mdx" then "documentation"
  else if sfx = ".html" then "html"
  else if sfx = ".json" then "configuration"
  else "other"

/-- `analyze_example_with_llm` (examples.py 20-96): no README and no
package.json, an empty (stripped) LLM response, or an unparsable JSON
response each raise a `ValueError` naming the project; on success the
analysis record is built with `.get` defaults. -/
def analyze_example_with_llm
    (readme_file package_json_file : Option String) (llm_response : String)
    (json_loads : String → Option LlmAnalysis) (example_path : String) :
    Except AnalyzeError ExampleAnalysis :=
  let readme_content := readme_file.getD ""
  let package_json_content := package_json_file.getD ""
  if readme_content = "" ∧ package_json_content = "" then
    .error (.noSourceFiles example_path)
  else if pyStrip llm_response = "" then
    .error (.emptyResponse example_path)
  else
    match json_loads llm_response with
    | none => .error (.invalidJson example_path llm_response)
    | some a =>
        .ok { description := a.description.getD ""
            , framework := a.framework.getD "unknown"
            , build_tool := a.build_tool.getD "unknown"
            , complexity := a.complexity.getD 1
            , example_type := a.example_type.getD ""
            , key_features := a.key_features.getD [] }

/-- Per-file Document of an example project (examples.py 144-185): the
shared project metadata plus per-file fields, with the `file_type` /
`description` override chain. -/
def exampleFileDoc (a : ExampleAnalysis) (f : ProjFile) : Document :=
  let example_type := a.example_type
  let ftdesc : String × String :=
    if f.name = "package.json" then
      ("dependencies", "Dependencies and scripts for " ++ example_type ++ " example")
    else if f.suffix = ".tsx" ∨ f.suffix = ".ts" ∨ f.suffix = ".jsx"
        ∨ f.suffix = ".js" then
      ("implementation", "Implementation code for " ++ example_type ++ " example")
    else if f.suffix = ".css" ∨ f.suffix = ".scss" ∨ f.suffix = ".sass" then
      ("stylesheet", "Styling and CSS for " ++ example_type ++ " example")
    else if f.suffix = ".md" ∨ f.suffix = ".mdx" then
      ("documentation", "Documentation for " ++ example_type ++ " example")
    else if f.suffix = ".html" then
      ("html", "HTML template for " ++ example_type ++ " example")
    else if strEndsWith f.name ".config." ∨ f.suffix = ".json" then
      ("configuration", "Build configuration for " ++ example_type ++ " example")
    else (get_file_type f, a.description)
  { page_content := f.content
  , metadata := fun k =>
      if k = "kind" then some (.str "example")
      else if k = "example_type" then some (.str a.example_type)
      else if k = "build_tool" then some (.str a.build_tool)
      else if k = "framework" then some (.str a.framework)
      else if k = "complexity" then some (.int a.complexity)
      else if k = "description" then some (.str ftdesc.2)
      else if k = "key_features" then some (.str (joinCommaSpace a.key_features))
      else if k = "relpath" then some (.str f.relpath)
      else if k = "ext" then some (.str f.suffix)
      else if k = "filename" then some (.str f.name)
      else if k = "file_type" then some (.str ftdesc.1)
      else if k = "component" then some (.str "none")
      else none }

/-- `process_example_project` (examples.py 99-191): a missing path yields no
documents; otherwise the LLM analysis runs first and its `ValueError`s
propagate uncaught; on success each matched non-dotfile with non-blank
content becomes one Document. -/
def process_example_project (path_exists : Bool)
    (readme_file package_json_file : Option String) (llm_response : String)
    (json_loads : String → Option LlmAnalysis) (example_path : String)
    (matched_files : List ProjFile) : Except AnalyzeError (List Document) :=
  if path_exists = false then .ok []
  else
    match analyze_example_with_llm readme_file package_json_file llm_response
        json_loads example_path with
    | .error e => .error e
    | .ok analysis =>
        .ok (matched_files.filterMap (fun f =>
          if ¬ strStartsWith f.name "." = true ∧ pyStrip f.content ≠ "" then
            some (exampleFileDoc analysis f)
          else none))

/-! Structural facts about the splitter's building blocks. -/

lemma length_le_maxLineLen {x : String} {l : List String} (h : x ∈ l) :
    x.length ≤ maxLineLen l := by
  induction l with
  | nil => cases h
  | cons a t ih =>
      rcases List.mem_cons.mp h with rfl | h
      · exact le_max_left _ _
      · exact le_trans (ih h) (le_max_right _ _)

lemma maxLineLen_attained {l : List String} (h : l ≠ []) :
    ∃ x ∈ l, maxLineLen l ≤ x.length := by
  induction l with
  | nil => exact absurd rfl h
  | cons a t ih =>
      rcases eq_or_ne t [] with rfl | ht
      · exact ⟨a, List.mem_cons_self a _, by simp [maxLineLen]⟩
      · obtain ⟨x, hx, hxl⟩ := ih ht
        rcases le_total (maxLineLen t) a.length with hle | hle
        · refine ⟨a, List.mem_cons_self a _, ?_⟩
          simp only [maxLineLen, List.map_cons, List.foldr_cons]
          exact max_le le_rfl hle
        · refine ⟨x, List.mem_cons_of_mem _ hx, ?_⟩
          simp only [maxLineLen, List.map_cons, List.foldr_cons]
          exact max_le (hle.trans hxl) hxl

lemma linesLen_append (l : List String) (x : String) :
    linesLen (l ++ [x]) = linesLen l + (x.length + 1) := by
  simp [linesLen]

lemma linesLen_cons (x : String) (l : List String) :
    linesLen (x :: l) = (x.length + 1) + linesLen l := by
  simp [linesLen]

lemma joinLines_length {l : List String} (h : l ≠ []) :
    (joinLines l).length + 1 = linesLen l := by
  induction l with
  | nil => exact absurd rfl h
  | cons a t ih =>
      cases t with
      | nil => rfl
      | cons b r =>
          have hih := ih (by simp)
          have h1 : joinLines (a :: b :: r) = a ++ "\n" ++ joinLines (b :: r) := rfl
          have h2 : ("\n" : String).length = 1 := rfl
          rw [h1, String.length_append, String.length_append, h2, linesLen_cons]
          omega

lemma rstrip_length_le (s : String) : (rstrip s).length ≤ s.length := by
  show ((s.data.reverse.dropWhile pyWhitespace).reverse).length ≤ s.length
  calc ((s.data.reverse.dropWhile pyWhitespace).reverse).length
      = (s.data.reverse.dropWhile pyWhitespace).length := List.length_reverse _
    _ ≤ s.data.reverse.length := (List.dropWhile_sublist _).length_le
    _ = s.data.length := List.length_reverse _

lemma carryAux_front (r : Int) (l : List String) : carryAux r l <+: l := by
  induction l generalizing r with
  | nil => simp [carryAux]
  | cons a t ih =>
      by_cases hr : 0 < r
      · obtain ⟨k, hk⟩ := ih (r - (a.length + 1))
        exact ⟨k, by simp [carryAux, hr, hk]⟩
      · simp [carryAux, hr]

lemma carryAux_len (r : Int) (l : List String) :
    carryAux r l = [] ∨
      ∃ x ∈ carryAux r l, (linesLen (carryAux r l) : Int) ≤ r + x.length := by
  induction l generalizing r with
  | nil => exact Or.inl rfl
  | cons a t ih =>
      by_cases hr : 0 < r
      · refine Or.inr ?_
        rcases ih (r - (a.length + 1)) with htl | ⟨x, hx, hxl⟩
        · refine ⟨a, ?_, ?_⟩
          · simp [carryAux, hr]
          · simp only [carryAux, if_pos hr, htl, linesLen, List.map_cons,
              List.map_nil, List.sum_cons, List.sum_nil]
            push_cast
            omega
        · refine ⟨x, ?_, ?_⟩
          · simp only [carryAux, if_pos hr]
            exact List.mem_cons_of_mem _ hx
          · simp only [carryAux, if_pos hr, linesLen, List.map_cons, List.sum_cons]
            simp only [linesLen] at hxl
            push_cast at hxl ⊢
            omega
      · simp [carryAux, hr]

lemma linesLen_reverse (l : List String) : linesLen l.reverse = linesLen l := by
  simp [linesLen, List.map_reverse, List.sum_reverse]

lemma overlapCarry_suffix (o : Nat) (cur : List String) :
    overlapCarry o cur <:+ cur := by
  have h : carryAux (o : Int) cur.reverse <+: cur.reverse := carryAux_front _ _
  show (carryAux (o : Int) cur.reverse).reverse <:+ cur
  exact (List.reverse_prefix).mp (by simpa using h)

lemma overlapCarry_len (o : Nat) (cur : List String) :
    overlapCarry o cur = [] ∨
      ∃ x ∈ cur, linesLen (overlapCarry o cur) ≤ o + x.length := by
  rcases carryAux_len (o : Int) cur.reverse with h | ⟨x, hx, hxl⟩
  · exact Or.inl (by simp [overlapCarry, h])
  · refine Or.inr ⟨x, ?_, ?_⟩
    · exact List.mem_reverse.mp ((carryAux_front _ _).mem hx)
    · have hsum : linesLen (overlapCarry o cur)
          = linesLen (carryAux (o : Int) cur.reverse) := by
        show linesLen (carryAux (o : Int) cur.reverse).reverse = _
        exact linesLen_reverse _
      rw [hsum]
      exact_mod_cast hxl

lemma suffix_eq_drop {l₁ l₂ : List String} (h : l₁ <:+ l₂) :
    l₁ = l₂.drop (l₂.length - l₁.length) := by
  obtain ⟨pre, rfl⟩ := h
  simp

/-! Facts about `chunkMeta`. -/

lemma chunkMeta_ne (m : Metadata) (a b : Int) {k : String}
    (h1 : k ≠ "start_line") (h2 : k ≠ "end_line") : chunkMeta m a b k = m k := by
  simp [chunkMeta, h1, h2]

lemma chunkMeta_start (m : Metadata) (a b : Int) :
    chunkMeta m a b "start_line" = some ((m "start_line").getD (.int a)) := by
  simp [chunkMeta]

lemma chunkMeta_end (m : Metadata) (a b : Int) :
    chunkMeta m a b "end_line" = some ((m "end_line").getD (.int b)) := by
  simp [chunkMeta]

lemma mkChunk_metadata (meta : Metadata) (cur : List String) (s : Nat) :
    (mkChunk meta cur (s : Int)).metadata
      = chunkMeta meta ((s : Int) + 1) ((s : Int) + (cur.length : Int)) := by
  have h : ((s : Int) + (cur.length : Int) - 1) + 1 = (s : Int) + (cur.length : Int) := by
    ring
  show chunkMeta meta ((s : Int) + 1) (((s : Int) + (cur.length : Int) - 1) + 1) = _
  rw [h]

lemma Covers_append_left {meta : Metadata} {out : List Document} {j : Nat}
    (h : Covers meta out j) (l : List Document) : Covers meta (out ++ l) j := by
  obtain ⟨c, hc, s, n, hm, h1, h2⟩ := h
  exact ⟨c, List.mem_append_left _ hc, s, n, hm, h1, h2⟩

/-- Main loop invariant of `split_documents`: if the loop, started from a
state in which the buffer is exactly the slice of `lines` from `s` up to
(excluding) `i` and all previously emitted chunks are good and jointly cover
lines `1..i` up to the current buffer, finishes with result `chunks`, then
every chunk of `chunks` is good and together they cover every line. -/
lemma splitLoop_sound (size overlap : Nat) (meta : Metadata) (lines : List String) :
    ∀ (fuel i : Nat) (cur : List String) (clen : Nat) (sIdx : Int) (s : Nat)
      (out chunks : List Document),
      sIdx = (s : Int) →
      s ≤ i → i ≤ lines.length →
      cur = (lines.drop s).take (i - s) →
      clen = linesLen cur →
      clen ≤ sizeCap size overlap lines →
      (∀ c ∈ out, GoodChunk size overlap meta lines c) →
      (∀ j : Nat, 1 ≤ j → j ≤ i → Covers meta out j ∨ (s + 1 ≤ j ∧ j ≤ s + cur.length)) →
      splitLoop size overlap meta lines fuel i cur clen sIdx out = some chunks →
      (∀ c ∈ chunks, GoodChunk size overlap meta lines c) ∧
      (∀ j : Nat, 1 ≤ j → j ≤ lines.length → Covers meta chunks j) := by
  intro fuel
  induction fuel with
  | zero =>
      intro i cur clen sIdx s out chunks _ _ _ _ _ _ _ _ hrun
      exact absurd hrun (by simp [splitLoop])
  | succ f ih =>
      intro i cur clen sIdx s out chunks hs hsi hil hcur hclen hcap hgood hcov hrun
      have hcurlen : cur.length = i - s := by
        rw [hcur, List.length_take, List.length_drop]
        exact Nat.min_eq_left (by omega)
      rw [splitLoop] at hrun
      by_cases hi : i < lines.length
      · rw [dif_pos hi] at hrun
        by_cases hcl : size < clen + (lines[i].length + 1) ∧ cur ≠ []
        · -- close the current chunk, carry the overlap, do not advance i
          rw [if_pos hcl] at hrun
          have hne : cur ≠ [] := hcl.2
          have hnpos : 1 ≤ cur.length := List.length_pos.mpr hne
          set carried := overlapCarry overlap cur with hcar
          have hsuff : carried <:+ cur := overlapCarry_suffix overlap cur
          have hk : carried.length ≤ cur.length := hsuff.length_le
          have hki : carried.length ≤ i := by omega
          -- the emitted chunk is good
          have hchunk : GoodChunk size overlap meta lines (mkChunk meta cur sIdx) := by
            refine ⟨s, cur.length, hnpos, by omega, ?_, ?_, ?_⟩
            · rw [hs]
              exact mkChunk_metadata meta cur s
            · show rstrip (joinLines cur) = _
              rw [hcurlen, hcur]
            · show (rstrip (joinLines cur)).length + 1 ≤ _
              have h1 := rstrip_length_le (joinLines cur)
              have h2 := joinLines_length hne
              omega
          -- the carried buffer is again a slice of lines
          have hcur' : carried = (lines.drop (i - carried.length)).take
              (i - (i - carried.length)) := by
            have hd : carried = cur.drop (cur.length - carried.length) :=
              suffix_eq_drop hsuff
            calc carried
                = cur.drop (cur.length - carried.length) := hd
              _ = ((lines.drop s).take (i - s)).drop ((i - s) - carried.length) := by
                  rw [hcurlen, hcur]
              _ = ((lines.drop s).drop ((i - s) - carried.length)).take
                    ((i - s) - ((i - s) - carried.length)) := List.drop_take ..
              _ = (lines.drop (s + ((i - s) - carried.length))).take
                    ((i - s) - ((i - s) - carried.length)) := by rw [List.drop_drop]
              _ = (lines.drop (i - carried.length)).take (i - (i - carried.length)) := by
                  have hks : carried.length ≤ i - s := by omega
                  have e1 : s + ((i - s) - carried.length) = i - carried.length := by
                    omega
                  have e2 : (i - s) - ((i - s) - carried.length)
                      = i - (i - carried.length) := by omega
                  rw [e1, e2]
          -- the carried buffer respects the size cap
          have hcap' : linesLen carried ≤ sizeCap size overlap lines := by
            rcases overlapCarry_len overlap cur with hemp | ⟨x, hx, hxl⟩
            · rw [← hcar] at hemp
              simp [hemp, linesLen]
            · have hxlines : x ∈ lines := by
                rw [hcur] at hx
                exact List.mem_of_mem_drop (List.mem_of_mem_take hx)
              have := length_le_maxLineLen hxlines
              have : linesLen carried ≤ overlap + maxLineLen lines := by
                rw [hcar]; omega
              calc linesLen carried ≤ overlap + maxLineLen lines := this
                _ ≤ sizeCap size overlap lines :=
                    le_trans (le_max_left _ _) (le_max_right _ _)
          refine ih i carried (linesLen carried) ((i : Int) - carried.length)
            (i - carried.length) (out ++ [mkChunk meta cur sIdx]) chunks ?_ ?_ hil
            hcur' rfl hcap' ?_ ?_ hrun
          · omega
          · omega
          · intro c hc
            rcases List.mem_append.mp hc with hc | hc
            · exact hgood c hc
            · rw [List.mem_singleton.mp hc]
              exact hchunk
          · intro j hj1 hj2
            rcases hcov j hj1 hj2 with hcv | ⟨hr1, hr2⟩
            · exact Or.inl (Covers_append_left hcv _)
            · refine Or.inl ⟨mkChunk meta cur sIdx,
                List.mem_append_right _ (List.mem_singleton_self _), s, cur.length,
                ?_, hr1, hr2⟩
              rw [hs]
              exact mkChunk_metadata meta cur s
        · -- append the current line to the buffer and advance i
          rw [if_neg hcl] at hrun
          have hdlen : i - s < (lines.drop s).length := by
            rw [List.length_drop]
            omega
          have hgete : (lines.drop s)[i - s] = lines[i] := by
            rw [List.getElem_drop]
            congr 1
            omega
          have hcur' : cur ++ [lines[i]] = (lines.drop s).take (i + 1 - s) := by
            rw [hcur, ← hgete, ← List.concat_eq_append, List.take_concat_get]
            congr 1
            omega
          have hcap' : clen + (lines[i].length + 1) ≤ sizeCap size overlap lines := by
            by_cases hlt : size < clen + (lines[i].length + 1)
            · have hceq : cur = [] := by
                by_contra hne
                exact hcl ⟨hlt, hne⟩
              have hclen0 : clen = 0 := by rw [hclen, hceq]; rfl
              have hmem : lines[i] ∈ lines := List.getElem_mem ..
              have := length_le_maxLineLen hmem
              have : clen + (lines[i].length + 1) ≤ maxLineLen lines + 1 := by omega
              calc clen + (lines[i].length + 1) ≤ maxLineLen lines + 1 := this
                _ ≤ sizeCap size overlap lines :=
                    le_trans (le_max_right _ _) (le_max_right _ _)
            · exact le_trans (not_lt.mp hlt) (le_max_left _ _)
          refine ih (i + 1) (cur ++ [lines[i]]) (clen + (lines[i].length + 1)) sIdx s
            out chunks hs (by omega) (by omega) hcur' ?_ hcap' hgood ?_ hrun
          · rw [hclen, linesLen_append]
          · intro j hj1 hj2
            rcases Nat.lt_or_ge j (i + 1) with hj | hj
            · rcases hcov j hj1 (by omega) with hcv | ⟨hr1, hr2⟩
              · exact Or.inl hcv
              · refine Or.inr ⟨hr1, ?_⟩
                rw [List.length_append]
                simpa using le_trans hr2 (by omega)
            · refine Or.inr ⟨by omega, ?_⟩
              rw [List.length_append]
              simp only [List.length_singleton]
              omega
      · -- the scan is finished: flush the remaining buffer
        rw [dif_neg hi] at hrun
        have hieq : i = lines.length := by omega
        by_cases hne : cur ≠ []
        · rw [if_pos hne] at hrun
          have hchunks : chunks = out ++ [mkChunk meta cur sIdx] :=
            (Option.some.inj hrun).symm
          have hnpos : 1 ≤ cur.length := List.length_pos.mpr hne
          have hchunk : GoodChunk size overlap meta lines (mkChunk meta cur sIdx) := by
            refine ⟨s, cur.length, hnpos, by omega, ?_, ?_, ?_⟩
            · rw [hs]
              exact mkChunk_metadata meta cur s
            · show rstrip (joinLines cur) = _
              rw [hcurlen, hcur]
            · show (rstrip (joinLines cur)).length + 1 ≤ _
              have h1 := rstrip_length_le (joinLines cur)
              have h2 := joinLines_length hne
              omega
          subst hchunks
          constructor
          · intro c hc
            rcases List.mem_append.mp hc with hc | hc
            · exact hgood c hc
            · rw [List.mem_singleton.mp hc]
              exact hchunk
          · intro j hj1 hj2
            rcases hcov j hj1 (by omega) with hcv | ⟨hr1, hr2⟩
            · exact Covers_append_left hcv _
            · refine ⟨mkChunk meta cur sIdx,
                List.mem_append_right _ (List.mem_singleton_self _), s, cur.length,
                ?_, hr1, hr2⟩
              rw [hs]
              exact mkChunk_metadata meta cur s
        · rw [if_neg hne] at hrun
          have hceq : cur = [] := not_not.mp hne
          have hchunks : chunks = out := (Option.some.inj hrun).symm
          subst hchunks
          refine ⟨hgood, ?_⟩
          intro j hj1 hj2
          rcases hcov j hj1 (by omega) with hcv | ⟨hr1, hr2⟩
          · exact hcv
          · rw [hceq] at hr2
            simp only [List.length_nil, Nat.add_zero] at hr2
            omega

/-- Once the loop reaches `i = 1` with the over-long line as its whole buffer,
every further iteration re-closes the same buffer: the overlap carry-over
returns the full buffer and `i` is not advanced, so no amount of fuel
finishes the loop. -/
lemma loopDoc_stuck (f : Nat) :
    ∀ out, splitLoop 10 1 loopDoc.metadata loopLines f 1 [loopLine] 21 0 out = none := by
  induction f with
  | zero => intro out; rfl
  | succ f ih =>
      intro out
      exact ih (out ++ [mkChunk loopDoc.metadata [loopLine] 0])

/-- C1: REFUTED as stated — the code has a non-termination bug.  The claim
asserts that for every source Document and every profile with
`0 ≤ overlap < target` the split operation terminates.  At the legal profile
`(target, overlap) = (10, 1)` and the two-line input
`"aaaaaaaaaaaaaaaaaaaa\nb"` (a single line longer than the target followed by
one more line), the loop closes a chunk, the overlap carry-over re-seeds the
buffer with the same over-long line, the line index is not advanced, and the
identical state recurs forever: the fueled embedding returns `none` for every
fuel bound, i.e. the `while` loop of `split_documents` never finishes. -/
theorem C1_split_documents_diverges_on_overlong_line :
    ∀ fuel : Nat, split_documents 10 1 fuel loopDoc = none := by
  intro fuel
  cases fuel with
  | zero => rfl
  | succ f =>
      have h0 : split_documents 10 1 (f + 1) loopDoc
          = splitLoop 10 1 loopDoc.metadata loopLines f 1 [loopLine] 21 0 [] := rfl
      rw [h0]
      exact loopDoc_stuck f []

/-- Soundness of `split_documents` from the initial loop state. -/
lemma split_documents_sound (size overlap fuel : Nat) (d : Document)
    (chunks : List Document)
    (hrun : split_documents size overlap fuel d = some chunks) :
    (∀ c ∈ chunks, GoodChunk size overlap d.metadata (splitlines d.page_content) c) ∧
    (∀ j : Nat, 1 ≤ j → j ≤ (splitlines d.page_content).length →
      Covers d.metadata chunks j) := by
  refine splitLoop_sound size overlap d.metadata (splitlines d.page_content)
    fuel 0 [] 0 0 0 [] chunks rfl (le_refl 0) (Nat.zero_le _) rfl rfl
    (Nat.zero_le _) ?_ ?_ hrun
  · intro c hc
    cases hc
  · intro j hj1 hj2
    exact absurd (hj1.trans hj2) (by omega)

/-- C2: CONFIRMED.  For a source Document without pre-existing
`start_line`/`end_line` metadata, every chunk the splitter produces carries a
computed 1-based range `start_line .. end_line`, and the lines of the
original content numbered `start_line` through `end_line`, joined with
newlines, equal the chunk's content up to the trailing-whitespace trim the
code applies when closing a chunk (`"\n".join(current).rstrip()`). -/
theorem C2_chunk_content_is_line_slice
    (size overlap fuel : Nat) (d : Document) (chunks : List Document)
    (hsl : d.metadata "start_line" = none) (hel : d.metadata "end_line" = none)
    (hrun : split_documents size overlap fuel d = some chunks) :
    ∀ c ∈ chunks, ∃ sN eN : Nat,
      c.metadata "start_line" = some (.int sN) ∧
      c.metadata "end_line" = some (.int eN) ∧
      1 ≤ sN ∧ sN ≤ eN ∧
      c.page_content
        = rstrip (joinLines
            (((splitlines d.page_content).drop (sN - 1)).take (eN + 1 - sN))) := by
  intro c hc
  obtain ⟨s, n, hn, hsn, hm, hcontent, _⟩ :=
    (split_documents_sound size overlap fuel d chunks hrun).1 c hc
  have ha : ((s : Int) + 1) = ((s + 1 : Nat) : Int) := by push_cast; ring
  have hb : ((s : Int) + (n : Int)) = ((s + n : Nat) : Int) := by push_cast; ring
  refine ⟨s + 1, s + n, ?_, ?_, by omega, by omega, ?_⟩
  · rw [hm, chunkMeta_start, hsl, ha]
    rfl
  · rw [hm, chunkMeta_end, hel, hb]
    rfl
  · have e1 : s + 1 - 1 = s := by omega
    have e2 : s + n + 1 - (s + 1) = n := by omega
    rw [e1, e2]
    exact hcontent

/-- C2 witness: the first chunk of the concrete three-line Document split
at profile `(4, 0)`. -/
theorem C2_chunk_content_is_line_slice_witness :
    ∃ sN eN : Nat,
      wChunk1.metadata "start_line" = some (.int sN) ∧
      wChunk1.metadata "end_line" = some (.int eN) ∧
      1 ≤ sN ∧ sN ≤ eN ∧
      wChunk1.page_content
        = rstrip (joinLines
            (((splitlines wDoc.page_content).drop (sN - 1)).take (eN + 1 - sN))) :=
  C2_chunk_content_is_line_slice 4 0 9 wDoc [wChunk1, wChunk2, wChunk3]
    rfl rfl rfl wChunk1 (List.mem_cons_self _ _)

/-- C3: CONFIRMED.  First conjunct: for a source Document without
pre-existing line annotations, every line number `1 .. line count` of the
source content lies inside the `[start_line, end_line]` range of some chunk
produced by the splitter.  Second conjunct: empty input produces zero
chunks (with any positive fuel the loop exits immediately). -/
theorem C3_coverage_and_empty_input :
    (∀ (size overlap fuel : Nat) (d : Document) (chunks : List Document),
      d.metadata "start_line" = none → d.metadata "end_line" = none →
      split_documents size overlap fuel d = some chunks →
      ∀ j : Nat, 1 ≤ j → j ≤ (splitlines d.page_content).length →
        ∃ c ∈ chunks, ∃ a b : Int,
          c.metadata "start_line" = some (.int a) ∧
          c.metadata "end_line" = some (.int b) ∧
          a ≤ (j : Int) ∧ (j : Int) ≤ b)
    ∧ (∀ (size overlap fuel : Nat) (meta : Metadata),
        split_documents size overlap (fuel + 1) ⟨"", meta⟩ = some []) := by
  constructor
  · intro size overlap fuel d chunks hsl hel hrun j hj1 hj2
    obtain ⟨c, hc, s, n, hm, h1, h2⟩ :=
      (split_documents_sound size overlap fuel d chunks hrun).2 j hj1 hj2
    refine ⟨c, hc, (s : Int) + 1, (s : Int) + (n : Int), ?_, ?_, ?_, ?_⟩
    · rw [hm, chunkMeta_start, hsl]
      rfl
    · rw [hm, chunkMeta_end, hel]
      rfl
    · omega
    · omega
  · intro size overlap fuel meta
    rfl

/-- C3 witness: line 2 of the concrete Document is covered, and the empty
Document yields zero chunks. -/
theorem C3_coverage_and_empty_input_witness :
    (∃ c ∈ ((split_documents 4 0 9 wDoc).getD []), ∃ a b : Int,
      c.metadata "start_line" = some (.int a) ∧
      c.metadata "end_line" = some (.int b) ∧
      a ≤ (2 : Int) ∧ (2 : Int) ≤ b)
    ∧ split_documents 4 0 1 ⟨"", wDoc.metadata⟩ = some [] :=
  ⟨C3_coverage_and_empty_input.1 4 0 9 wDoc _ rfl rfl rfl 2 (by decide) (by decide),
   C3_coverage_and_empty_input.2 4 0 0 wDoc.metadata⟩

/-- C4: CONFIRMED (in the stronger, unconditional form).  For any profile
with `overlap < target`, every chunk the splitter produces — including any
chunk consisting of a single over-long line — has content length at most the
target plus the length of one line of the source, so in particular the
claim's exception-qualified bound holds. -/
theorem C4_soft_size_bound
    (size overlap fuel : Nat) (d : Document) (chunks : List Document)
    (hov : overlap < size)
    (hrun : split_documents size overlap fuel d = some chunks) :
    ∀ c ∈ chunks, ∃ l ∈ splitlines d.page_content,
      c.page_content.length ≤ size + l.length := by
  intro c hc
  obtain ⟨s, n, hn, hsn, _, _, hlen⟩ :=
    (split_documents_sound size overlap fuel d chunks hrun).1 c hc
  have hne : splitlines d.page_content ≠ [] := by
    intro h
    rw [h] at hsn
    simp only [List.length_nil] at hsn
    omega
  obtain ⟨x, hx, hxl⟩ := maxLineLen_attained hne
  have hcapb : sizeCap size overlap (splitlines d.page_content)
      ≤ size + maxLineLen (splitlines d.page_content) + 1 := by
    have h2 : overlap + maxLineLen (splitlines d.page_content)
        ≤ size + maxLineLen (splitlines d.page_content) + 1 := by omega
    have h3 : maxLineLen (splitlines d.page_content) + 1
        ≤ size + maxLineLen (splitlines d.page_content) + 1 := by omega
    exact max_le (by omega) (max_le h2 h3)
  exact ⟨x, hx, by omega⟩

/-- C4 witness: the second chunk of the concrete split at profile `(4, 0)`. -/
theorem C4_soft_size_bound_witness :
    ∃ l ∈ splitlines wDoc.page_content,
      wChunk2.page_content.length ≤ 4 + l.length :=
  C4_soft_size_bound 4 0 9 wDoc [wChunk1, wChunk2, wChunk3] (by decide) rfl
    wChunk2 (List.mem_cons_of_mem _ (List.mem_cons_self _ _))

/-- C6: CONFIRMED.  Every chunk's metadata agrees with the source metadata
on every key other than `start_line`/`end_line`, and pre-existing
`start_line`/`end_line` values on the source metadata are carried to every
chunk unchanged, taking precedence over the computed values. -/
theorem C6_metadata_frame_and_precedence
    (size overlap fuel : Nat) (d : Document) (chunks : List Document)
    (hrun : split_documents size overlap fuel d = some chunks) :
    ∀ c ∈ chunks,
      (∀ k : String, k ≠ "start_line" → k ≠ "end_line" →
        c.metadata k = d.metadata k) ∧
      (∀ v : MetaVal, d.metadata "start_line" = some v →
        c.metadata "start_line" = some v) ∧
      (∀ v : MetaVal, d.metadata "end_line" = some v →
        c.metadata "end_line" = some v) := by
  intro c hc
  obtain ⟨s, n, _, _, hm, _, _⟩ :=
    (split_documents_sound size overlap fuel d chunks hrun).1 c hc
  refine ⟨?_, ?_, ?_⟩
  · intro k h1 h2
    rw [hm]
    exact chunkMeta_ne d.metadata _ _ h1 h2
  · intro v hv
    rw [hm, chunkMeta_start, hv]
    rfl
  · intro v hv
    rw [hm, chunkMeta_end, hv]
    rfl

/-- C6 witness: the first chunk of a Document with pre-existing annotations
`7`/`9` keeps them, and its `kind` key is copied unchanged. -/
theorem C6_metadata_frame_and_precedence_witness :
    w6Chunk1.metadata "kind" = wDoc6.metadata "kind" ∧
    w6Chunk1.metadata "start_line" = some (.int 7) ∧
    w6Chunk1.metadata "end_line" = some (.int 9) :=
  ⟨(C6_metadata_frame_and_precedence 2 0 9 wDoc6 [w6Chunk1, w6Chunk2] rfl
      w6Chunk1 (List.mem_cons_self _ _)).1 "kind" (by decide) (by decide),
   (C6_metadata_frame_and_precedence 2 0 9 wDoc6 [w6Chunk1, w6Chunk2] rfl
      w6Chunk1 (List.mem_cons_self _ _)).2.1 (.int 7) rfl,
   (C6_metadata_frame_and_precedence 2 0 9 wDoc6 [w6Chunk1, w6Chunk2] rfl
      w6Chunk1 (List.mem_cons_self _ _)).2.2 (.int 9) rfl⟩

/-- C5: REFUTED as stated.  A Document whose relpath matches an atomic
props-file pattern is emitted by the chunking stage of `ingest` unchanged:
its metadata carries no `start_line`/`end_line` keys at all, so the claimed
invariant `1 ≤ start_line ≤ end_line ≤ line count` fails for such chunks.
Concretely, `propsDoc` (relpath `components/ButtonProps.ts`) is emitted as
the single chunk equal to itself with `start_line` and `end_line` absent. -/
theorem C5_props_chunk_has_no_line_metadata :
    chunkDocument 4000 400 9 propsDoc = some [propsDoc] ∧
    propsDoc.metadata "start_line" = none ∧
    propsDoc.metadata "end_line" = none :=
  ⟨rfl, rfl, rfl⟩

/-- C5 as amended: every chunk produced by the line-aware splitter from a
source Document without pre-existing line annotations carries `start_line`
and `end_line` satisfying `1 ≤ start_line ≤ end_line ≤ line count of the
source`; Documents matching the atomic props-file pattern bypass the
splitter and carry no line annotations. -/
theorem C5_splitter_chunk_line_bounds
    (size overlap fuel : Nat) (d : Document) (chunks : List Document)
    (hsl : d.metadata "start_line" = none) (hel : d.metadata "end_line" = none)
    (hrun : split_documents size overlap fuel d = some chunks) :
    ∀ c ∈ chunks, ∃ sN eN : Nat,
      c.metadata "start_line" = some (.int sN) ∧
      c.metadata "end_line" = some (.int eN) ∧
      1 ≤ sN ∧ sN ≤ eN ∧ eN ≤ (splitlines d.page_content).length := by
  intro c hc
  obtain ⟨s, n, hn, hsn, hm, _, _⟩ :=
    (split_documents_sound size overlap fuel d chunks hrun).1 c hc
  have ha : ((s : Int) + 1) = ((s + 1 : Nat) : Int) := by push_cast; ring
  have hb : ((s : Int) + (n : Int)) = ((s + n : Nat) : Int) := by push_cast; ring
  refine ⟨s + 1, s + n, ?_, ?_, by omega, by omega, by omega⟩
  · rw [hm, chunkMeta_start, hsl, ha]
    rfl
  · rw [hm, chunkMeta_end, hel, hb]
    rfl

/-- C5 amended witness: the last chunk of the concrete split at profile
`(4, 0)`. -/
theorem C5_splitter_chunk_line_bounds_witness :
    ∃ sN eN : Nat,
      wChunk3.metadata "start_line" = some (.int sN) ∧
      wChunk3.metadata "end_line" = some (.int eN) ∧
      1 ≤ sN ∧ sN ≤ eN ∧ eN ≤ (splitlines wDoc.page_content).length :=
  C5_splitter_chunk_line_bounds 4 0 8 wDoc [wChunk1, wChunk2, wChunk3]
    rfl rfl rfl wChunk3
    (List.mem_cons_of_mem _ (List.mem_cons_of_mem _ (List.mem_cons_self _ _)))

/-- C7: CONFIRMED.  A Document whose relpath contains one of the configured
atomic props-file patterns is emitted by the chunking stage as exactly one
chunk equal to the whole Document — content and metadata unchanged,
independent of its size and of the configured default profile — and no
other selector branch applies (the remaining branches are behind `elif`). -/
theorem C7_props_file_single_whole_chunk
    (chunk_chars chunk_overlap fuel : Nat) (doc : Document)
    (h : PROPS_FILE_PATTERNS.any
      (fun pat => strHasSub (getStrD doc.metadata "relpath" "") pat) = true) :
    chunkDocument chunk_chars chunk_overlap fuel doc = some [doc] := by
  unfold chunkDocument
  simp [h]

/-- C7 witness: the concrete props Document passes through unchanged even
with zero fuel for the (unused) splitter. -/
theorem C7_props_file_single_whole_chunk_witness :
    chunkDocument 7 3 0 propsDoc = some [propsDoc] :=
  C7_props_file_single_whole_chunk 7 3 0 propsDoc rfl

/-- C8: CONFIRMED.  For every input text and supported source-language
extension, when the structural (tree-sitter) pipeline throws — modelled by
the oracle returning `.error` — `extract_components_with_ast` returns
exactly the set produced by the textual-regex fallback applied directly to
the text.  The embedding is a total function, so no exception escapes. -/
theorem C8_parse_failure_falls_back_to_regex
    (infer_components : String → Finset String) (text : String)
    (file_ext : String) (e : Unit)
    (hsup : file_ext ∈ SUPPORTED_PARSER_EXTS) :
    extract_components_with_ast (.error e) infer_components text file_ext
      = infer_components text := by
  unfold extract_components_with_ast
  rw [if_neg (not_not_intro hsup)]

/-- C8 witness: a concrete fallback and text at extension `.tsx`. -/
theorem C8_parse_failure_falls_back_to_regex_witness :
    extract_components_with_ast (.error ()) (fun t => {t})
      "export default Button" ".tsx" = {"export default Button"} :=
  C8_parse_failure_falls_back_to_regex (fun t => {t}) "export default Button"
    ".tsx" () (by decide)

/-- C9: CONFIRMED.  A documentation file whose frontmatter `component` field
is a boolean (either value) and that yields no other component produces
exactly one Document whose `components` metadata is the empty string and
which has no `component` key, and the Component Registry (counts and files)
is left untouched. -/
theorem C9_boolean_component_discarded
    (fm_title fm_description : Option FmVal) (b : Bool)
    (path relpath ext text : String) (reg : Registry)
    (hext : ext = ".md" ∨ ext = ".mdx") :
    (process_documentation_file fm_title fm_description (some (.boolv b))
        path relpath ext text reg).docs.map
      (fun d => (d.metadata "components", d.metadata "component"))
      = [(some (.str ""), none)]
    ∧ (process_documentation_file fm_title fm_description (some (.boolv b))
        path relpath ext text reg).registry = reg := by
  rcases hext with rfl | rfl <;> cases b <;> exact ⟨rfl, rfl⟩

/-- C9 witness: a concrete `.mdx` file whose frontmatter `component` is the
boolean `True`. -/
theorem C9_boolean_component_discarded_witness :
    (process_documentation_file none none (some (.boolv true))
        "p" "guide.mdx" ".mdx" "hello" emptyRegistry).docs.map
      (fun d => (d.metadata "components", d.metadata "component"))
      = [(some (.str ""), none)]
    ∧ (process_documentation_file none none (some (.boolv true))
        "p" "guide.mdx" ".mdx" "hello" emptyRegistry).registry = emptyRegistry :=
  C9_boolean_component_discarded none none true "p" "guide.mdx" ".mdx" "hello"
    emptyRegistry (Or.inr rfl)

/-- C10: CONFIRMED.  For an existing example project directory, each of the
three summarization failure modes — no README.md and no package.json, an
empty (stripped) model response, or a response `json.loads` rejects — makes
`process_example_project` propagate an error that names the project, and no
document list is produced for that project. -/
theorem C10_summarization_failure_is_fatal
    (readme_file package_json_file : Option String) (llm_response : String)
    (json_loads : String → Option LlmAnalysis) (example_path : String)
    (matched_files : List ProjFile)
    (hfail : (readme_file.getD "" = "" ∧ package_json_file.getD "" = "")
      ∨ pyStrip llm_response = ""
      ∨ json_loads llm_response = none) :
    ∃ e : AnalyzeError,
      process_example_project true readme_file package_json_file llm_response
        json_loads example_path matched_files = .error e ∧
      e.examplePath = example_path := by
  by_cases h1 : readme_file.getD "" = "" ∧ package_json_file.getD "" = ""
  · exact ⟨.noSourceFiles example_path,
      by simp [process_example_project, analyze_example_with_llm, h1], rfl⟩
  · by_cases h2 : pyStrip llm_response = ""
    · exact ⟨.emptyResponse example_path,
        by simp [process_example_project, analyze_example_with_llm, h1, h2], rfl⟩
    · have h3 : json_loads llm_response = none := by tauto
      exact ⟨.invalidJson example_path llm_response,
        by simp [process_example_project, analyze_example_with_llm, h1, h2, h3], rfl⟩

/-- C10 witness: a project with neither README.md nor package.json. -/
theorem C10_summarization_failure_is_fatal_witness :
    ∃ e : AnalyzeError,
      process_example_project true none none "not json" (fun _ => none)
        "examples/console-demo" [] = .error e ∧
      e.examplePath = "examples/console-demo" :=
  C10_summarization_failure_is_fatal none none "not json" (fun _ => none)
    "examples/console-demo" [] (Or.inl ⟨rfl, rfl⟩)

end VUIKit
